import Mathlib

/-!
Verification development for `ndjson_to_csv.py`: a streaming NDJSON-to-CSV
converter.  The script reads an (optionally gzip/zstd-compressed) file of
newline-delimited JSON, filters records by substring containment over the
`body`/`title` fields and by an inclusive numeric range over a timestamp
field, projects a fixed field list into CSV rows (with optional
epoch-to-ISO-8601 normalization per field), and rotates output files once a
row-count threshold is reached.

The embedding below translates the Python source into Lean:
  * `JVal` models the values produced by `json.loads` (Python dicts are
    association lists with unique keys, as produced by a dict);
  * Python built-ins used by the script (`float`, `str`, truthiness,
    `str.lower`, the `in` substring test, `os.path.splitext`,
    `datetime.utcfromtimestamp(..).strftime(..)`, `json.dumps`) are embedded
    as executable functions; Python floats are modelled as exact rationals
    (IEEE-754 rounding, infinities and NaN are outside this model, and the
    decimal rendering of non-integral floats is an exact expansion rather
    than the shortest round-trip form -- none of which is exercised here);
  * uncaught Python exceptions (TypeError / AttributeError) are modelled by
    `Except PyErr`;
  * the JSON parser itself (`json.loads`, an external library call) is a
    parameter `loads : String -> Option JVal` of the driver, `none` meaning
    a `json.JSONDecodeError`.
-/

namespace NdjsonToCsv

/-- The values produced by `json.loads`: Python `None`, `bool`, `int`,
`float`, `str`, `list`, `dict`.  Integer JSON literals become `int`,
all other JSON numbers become `float` (modelled as an exact rational). -/
inductive JVal where
  | null
  | bool (b : Bool)
  | int (n : Int)
  | float (q : ℚ)
  | str (s : String)
  | arr (xs : List JVal)
  | obj (kvs : List (String × JVal))

/-- Uncaught Python exceptions that the script can raise while processing
a record. -/
inductive PyErr where
  | typeError
  | attributeError
deriving DecidableEq, Repr

/-- Python truthiness (`bool(v)`) of a JSON value. -/
def pyTruthy : JVal → Bool
  | .null => false
  | .bool b => b
  | .int n => n != 0
  | .float q => q != 0
  | .str s => !s.isEmpty
  | .arr xs => !xs.isEmpty
  | .obj kvs => !kvs.isEmpty

/-- Dictionary lookup `d.get(k, None)` on a parsed JSON object: a missing
key yields Python `None`, which coincides with the representation of a
JSON `null` value (exactly as in Python, where `d.get(k)` cannot tell the
two apart). Keys of a dict are unique, so first-match lookup is lookup. -/
def objGet (kvs : List (String × JVal)) (k : String) : JVal :=
  match kvs.find? (fun kv => kv.1 == k) with
  | some kv => kv.2
  | none => .null

/-- Python `v.get(k, None)` on an arbitrary value: only dicts have a `get`
attribute; every other value raises `AttributeError`. -/
def pyGet (v : JVal) (k : String) : Except PyErr JVal :=
  match v with
  | .obj kvs => .ok (objGet kvs k)
  | _ => .error .attributeError

/-- The whitespace characters recognized by the Python `str.strip()` /
`str.isspace()` (ASCII whitespace plus the common Unicode space
characters). -/
def pyIsSpace (c : Char) : Bool :=
  c == ' ' || c == '\t' || c == '\n' || c == '\r' || c == '\x0b' || c == '\x0c' ||
  c == '\x1c' || c == '\x1d' || c == '\x1e' || c == '\x1f' || c == '\x85' ||
  c == '\xa0' || c == '\u1680' || (('\u2000' ≤ c) && (c ≤ '\u200a')) ||
  c == '\u2028' || c == '\u2029' || c == '\u202f' || c == '\u205f' || c == '\u3000'

/-- The test `not line.strip()`: the line is empty or consists of whitespace only. -/
def isBlank (line : String) : Bool :=
  line.data.all pyIsSpace

/-- Python `s.lower()`.  Python lowercases the full Unicode range; the script only
ever compares search terms, which we model over the ASCII case map. -/
def pyLower (s : String) : String :=
  String.mk (s.data.map Char.toLower)

/-- The Python substring test `needle in haystack`. -/
def pyInStr (needle haystack : String) : Bool :=
  (List.range (haystack.data.length + 1)).any
    (fun i => List.isPrefixOf needle.data (haystack.data.drop i))

/-- Strip leading and trailing Python whitespace from a character list
(the implicit strip performed by `float(str)`). -/
def stripWs (cs : List Char) : List Char :=
  ((cs.dropWhile pyIsSpace).reverse.dropWhile pyIsSpace).reverse

/-- Accumulating parser for a nonempty run of ASCII digits in which single
underscores may appear between digits (PEP 515, as accepted by `float`).
Returns the value and the number of digits consumed. -/
def gdLoop : Nat → Nat → List Char → Option (Nat × Nat)
  | acc, cnt, [] => some (acc, cnt)
  | acc, cnt, '_' :: rest =>
    match rest with
    | c :: rest2 =>
      if c.isDigit then gdLoop (acc * 10 + (c.toNat - 48)) (cnt + 1) rest2 else none
    | [] => none
  | acc, cnt, c :: rest =>
    if c.isDigit then gdLoop (acc * 10 + (c.toNat - 48)) (cnt + 1) rest else none

/-- A whole character run as an underscore-grouped digit sequence:
nonempty, starts and ends with a digit, no doubled underscores. -/
def gdigits : List Char → Option (Nat × Nat)
  | [] => none
  | c :: rest => if c.isDigit then gdLoop (c.toNat - 48) 1 rest else none

/-- Integer power of ten as a rational, for the exponent part of a float
literal. -/
def pow10 (e : Int) : ℚ :=
  if 0 ≤ e then ((10 : ℚ) ^ e.toNat) else 1 / ((10 : ℚ) ^ (-e).toNat)

/-- The string form accepted by the Python `float(str)`: optional surrounding
whitespace, optional sign, a decimal mantissa with optional fraction and
optional exponent, with PEP 515 underscore grouping.  (The IEEE special
spellings `inf`/`infinity`/`nan` have no rational value and are outside
this model; Unicode digits are likewise not modelled.) -/
def parseFloatStr (s : String) : Option ℚ :=
  let cs := stripWs s.data
  match cs with
  | [] => none
  | _ =>
    let sgn : ℚ := match cs with
      | '-' :: _ => -1
      | _ => 1
    let cs := match cs with
      | '+' :: r => r
      | '-' :: r => r
      | _ => cs
    let (mant, expo) := match cs.findIdx? (fun c => c == 'e' || c == 'E') with
      | none => (cs, none)
      | some i => (cs.take i, some (cs.drop (i + 1)))
    do
      let e : Int ←
        match expo with
        | none => pure (0 : Int)
        | some ec => do
          let es : Int := match ec with
            | '-' :: _ => -1
            | _ => 1
          let ec := match ec with
            | '+' :: r => r
            | '-' :: r => r
            | _ => ec
          let (ev, _) ← gdigits ec
          pure (es * (ev : Int))
      match mant.findIdx? (fun c => c == '.') with
      | none => do
        let (iv, _) ← gdigits mant
        pure (sgn * (iv : ℚ) * pow10 e)
      | some i =>
        let ic := mant.take i
        let fc := mant.drop (i + 1)
        if fc.contains '.' then none
        else if ic.isEmpty && fc.isEmpty then none
        else do
          let iv ← if ic.isEmpty then pure 0 else (gdigits ic).map (fun p => p.1)
          let (fv, fn) ← if fc.isEmpty then pure ((0 : Nat), (0 : Nat)) else gdigits fc
          pure (sgn * ((iv : ℚ) + (fv : ℚ) / ((10 : ℚ) ^ fn)) * pow10 e)

/-- The built-in `float(v)` on a JSON value: exact on `int` and `float`,
`True`/`False` map to `1.0`/`0.0` (bool is an int subclass), strings are
parsed as float literals; `None`, lists and dicts raise `TypeError`,
modelled as `none`. -/
def pyFloat (v : JVal) : Option ℚ :=
  match v with
  | .int n => some (n : ℚ)
  | .float q => some q
  | .bool b => some (if b then 1 else 0)
  | .str s => parseFloatStr s
  | _ => none

/-- Lowercase hexadecimal digit, used by the `\xNN` / `\u00NN` escape
forms of `repr` and `json.dumps`. -/
def hexDigitChar (n : Nat) : Char :=
  if n < 10 then Char.ofNat (48 + n) else Char.ofNat (87 + n)

/-- Fraction digits of `num/den` (with `num < den`), by repeated
multiplication by ten.  Actual Python floats are dyadic rationals, so for
every value arising from a float the expansion terminates; the fuel bounds
the recursion for the general rational. -/
def decDigits : Nat → Nat → Nat → String
  | 0, _, _ => ""
  | _ + 1, 0, _ => ""
  | fuel + 1, num, den =>
    let num10 := num * 10
    String.mk [Char.ofNat (48 + num10 / den)] ++ decDigits fuel (num10 % den) den

/-- The decimal rendering `str(f)` / `repr(f)` of a Python float, modelled
as the exact decimal expansion with a mandatory fractional part (so
`1.0`, `2.5`, `-0.125`).  the Python shortest-round-trip repr and its
scientific notation for very large/small magnitudes are not distinguished
by any behavior modelled here. -/
def floatRepr (q : ℚ) : String :=
  let sgn := if q < 0 then "-" else ""
  let n := q.num.natAbs
  let d := q.den
  let ip := n / d
  let fr := n % d
  let fs := if fr == 0 then "0" else decDigits 64 fr d
  sgn ++ toString ip ++ "." ++ fs

/-- The single-quote character, written by code point to keep the source
free of bare apostrophes. -/
def sq : Char := Char.ofNat 39

/-- Escaping of one character inside a Python string repr with quote
character `q`: backslash and the quote are escaped, the common control
characters use their short forms, other control characters use `\xNN`. -/
def pyReprEsc (q : Char) (c : Char) : String :=
  if c == '\\' then "\\\\"
  else if c == q then "\\" ++ String.mk [q]
  else if c == '\n' then "\\n"
  else if c == '\r' then "\\r"
  else if c == '\t' then "\\t"
  else if c.toNat < 32 || c.toNat == 127 then
    "\\x" ++ String.mk [hexDigitChar (c.toNat / 16), hexDigitChar (c.toNat % 16)]
  else String.mk [c]

/-- Python `repr(s)` for a string: single-quoted, unless the string
contains a single quote and no double quote. -/
def pyStrRepr (s : String) : String :=
  let q := if s.data.contains sq && !(s.data.contains '"') then '"' else sq
  String.mk [q] ++ String.join (s.data.map (pyReprEsc q)) ++ String.mk [q]

mutual

/-- Python `repr(v)` of a JSON value, as produced by Python (`str` on a list or
dict shows the repr of its elements). -/
def pyRepr : JVal → String
  | .null => "None"
  | .bool true => "True"
  | .bool false => "False"
  | .int n => toString n
  | .float q => floatRepr q
  | .str s => pyStrRepr s
  | .arr xs => "[" ++ String.intercalate ", " (pyReprList xs) ++ "]"
  | .obj kvs => "\x7b" ++ String.intercalate ", " (pyReprKVs kvs) ++ "\x7d"

/-- Reprs of the elements of a list value. -/
def pyReprList : List JVal → List String
  | [] => []
  | x :: xs => pyRepr x :: pyReprList xs

/-- Reprs of the entries of a dict value (`k: v` pairs). -/
def pyReprKVs : List (String × JVal) → List String
  | [] => []
  | (k, v) :: rest => (pyStrRepr k ++ ": " ++ pyRepr v) :: pyReprKVs rest

end

/-- The built-in `str(v)`: strings pass through unchanged, `None`, bools
and numbers use their canonical text, lists and dicts fall back to their
repr. -/
def pyStr : JVal → String
  | .str s => s
  | .null => "None"
  | .bool true => "True"
  | .bool false => "False"
  | .int n => toString n
  | .float q => floatRepr q
  | .arr xs => pyRepr (.arr xs)
  | .obj kvs => pyRepr (.obj kvs)

/-- Escaping of one character by `json.dumps(.., ensure_ascii=False)`:
quote, backslash and control characters are escaped, everything else
(including non-ASCII) passes through. -/
def jsonEscChar (c : Char) : String :=
  if c == '"' then "\\\""
  else if c == '\\' then "\\\\"
  else if c == '\n' then "\\n"
  else if c == '\r' then "\\r"
  else if c == '\t' then "\\t"
  else if c == '\x08' then "\\b"
  else if c == '\x0c' then "\\f"
  else if c.toNat < 32 then
    "\\u00" ++ String.mk [hexDigitChar (c.toNat / 16), hexDigitChar (c.toNat % 16)]
  else String.mk [c]

/-- A JSON string literal as written by `json.dumps`. -/
def jsonQuote (s : String) : String :=
  "\"" ++ String.join (s.data.map jsonEscChar) ++ "\""

mutual

/-- Python `json.dumps(v, ensure_ascii=False)` with the default separators
(", " between items, ": " between a key and its value), exactly as called
by `write_csv_row`. -/
def jsonDumps : JVal → String
  | .null => "null"
  | .bool true => "true"
  | .bool false => "false"
  | .int n => toString n
  | .float q => floatRepr q
  | .str s => jsonQuote s
  | .arr xs => "[" ++ String.intercalate ", " (jsonDumpsList xs) ++ "]"
  | .obj kvs => "\x7b" ++ String.intercalate ", " (jsonDumpsKVs kvs) ++ "\x7d"

/-- Serialized elements of a JSON array. -/
def jsonDumpsList : List JVal → List String
  | [] => []
  | x :: xs => jsonDumps x :: jsonDumpsList xs

/-- Serialized entries of a JSON object. -/
def jsonDumpsKVs : List (String × JVal) → List String
  | [] => []
  | (k, v) :: rest => (jsonQuote k ++ ": " ++ jsonDumps v) :: jsonDumpsKVs rest

end

/-- Round a rational to the nearest integer, ties to even: the rounding
CPython applies when converting a float timestamp to whole microseconds in
`datetime.utcfromtimestamp`. -/
def rhe (q : ℚ) : Int :=
  let f := q.floor
  let r := q - (f : ℚ)
  if r < 1 / 2 then f
  else if 1 / 2 < r then f + 1
  else if f % 2 == 0 then f else f + 1

/-- Zero-pad a natural number to two digits (`%m`, `%d`, `%H`, `%M`,
`%S`). -/
def pad2 (n : Nat) : String :=
  if n < 10 then "0" ++ toString n else toString n

/-- Zero-pad a natural number to (at least) four digits: the Python
zero-padding width-4 format (percent-04d), also used for `%Y`. -/
def pad4 (n : Nat) : String :=
  if n < 10 then "000" ++ toString n
  else if n < 100 then "00" ++ toString n
  else if n < 1000 then "0" ++ toString n
  else toString n

/-- Convert a count of days since 1970-01-01 to the proleptic Gregorian
civil date (year, month, day); the standard era-based conversion. -/
def civilFromDays (z : Int) : Int × Nat × Nat :=
  let z := z + 719468
  let era := z.fdiv 146097
  let doe := (z - era * 146097).toNat
  let yoe := (doe - doe / 1460 + doe / 36524 - doe / 146096) / 365
  let doy := doe - (365 * yoe + yoe / 4 - yoe / 100)
  let mp := (5 * doy + 2) / 153
  let d := doy - (153 * mp + 2) / 5 + 1
  let m := if mp < 10 then mp + 3 else mp - 9
  (era * 400 + yoe + (if m ≤ 2 then 1 else 0), m, d)

/-- Whole-second part of the timestamp formatting: convert POSIX seconds
to the civil UTC date and time of day and print the `strftime` pattern
`%Y-%m-%dT%H:%M:%SZ`; timestamps whose year falls outside the `datetime`
range 1..9999 raise (OverflowError / ValueError), modelled as `none`. -/
def utcIsoSec (sec : Int) : Option String :=
  let days := sec.fdiv 86400
  let sod := (sec - days * 86400).toNat
  let (y, m, d) := civilFromDays days
  if 1 ≤ y && y ≤ 9999 then
    some (pad4 y.toNat ++ "-" ++ pad2 m ++ "-" ++ pad2 d ++ "T" ++
      pad2 (sod / 3600) ++ ":" ++ pad2 (sod % 3600 / 60) ++ ":" ++ pad2 (sod % 60) ++ "Z")
  else none

/-- Python `datetime.utcfromtimestamp(ts).strftime("%Y-%m-%dT%H:%M:%SZ")`:
the float timestamp is rounded to whole microseconds (ties to even) as in
CPython, the whole seconds are the floor of the microsecond count, and the
civil date is printed. -/
def utcIso (ts : ℚ) : Option String :=
  let us := rhe (ts * 1000000)
  utcIsoSec (us.fdiv 1000000)

/-! ## Field projection / row encoding (`write_csv_row`) -/

/-- The cell produced for one field by `write_csv_row`:
`None` (missing key or JSON null) gives the empty string; a field in the
datetime list attempts `float(val)`, normalizes an apparent milliseconds
value, and formats it as ISO-8601 UTC, falling back to `str(val)` when
`float` or the conversion raises; otherwise dicts and lists are serialized
with `json.dumps(.., ensure_ascii=False)` and scalars use `str(val)`. -/
def encodeCell (datetimeFields : List String) (f : String) (val : JVal) : String :=
  match val with
  | .null => ""
  | _ =>
    if f ∈ datetimeFields then
      match pyFloat val with
      | some ts =>
        let ts := if ts > 10000000000 then ts / 1000 else ts
        match utcIso ts with
        | some iso => iso
        | none => pyStr val
      | none => pyStr val
    else
      match val with
      | .arr xs => jsonDumps (.arr xs)
      | .obj kvs => jsonDumps (.obj kvs)
      | _ => pyStr val

/-- The function `write_csv_row(writer, fields, obj, datetime_fields)`: one cell per
configured field, in order; `obj.get(f, None)` raises `AttributeError` on
a non-dict record, aborting at the first field. -/
def writeCsvRow (fields datetimeFields : List String) (obj : JVal) :
    Except PyErr (List String) :=
  match fields with
  | [] => .ok []
  | f :: rest =>
    match pyGet obj f with
    | .error e => .error e
    | .ok v =>
      match writeCsvRow rest datetimeFields obj with
      | .error e => .error e
      | .ok cells => .ok (encodeCell datetimeFields f v :: cells)

/-! ## Record filters (the loop body of `main`) -/

/-- The coercion applied to `obj.get("body")` and `obj.get("title")` by the
expression `(x or "") + ...`: a falsy value contributes the empty string;
a truthy non-string raises `TypeError` at the string concatenation. -/
def pyOrEmpty (v : JVal) : Except PyErr String :=
  if pyTruthy v then
    match v with
    | .str s => .ok s
    | _ => .error .typeError
  else .ok ""

/-- The text `((obj.get("body") or "") + " " + (obj.get("title") or "")).lower()`,
with the Python evaluation order (the body part is concatenated, and can
raise, before the title is fetched). -/
def containsText (obj : JVal) : Except PyErr String :=
  match pyGet obj "body" with
  | .error e => .error e
  | .ok bv =>
    match pyOrEmpty bv with
    | .error e => .error e
    | .ok bs =>
      match pyGet obj "title" with
      | .error e => .error e
      | .ok tv =>
        match pyOrEmpty tv with
        | .error e => .error e
        | .ok ts => .ok (pyLower (bs ++ " " ++ ts))

/-- The containment filter stage: skipped entirely when no terms are
configured; otherwise the record passes iff any (pre-lowercased) term
occurs in the lowercased `body`/`title` text. -/
def containsStage (terms : List String) (obj : JVal) : Except PyErr Bool :=
  match terms with
  | [] => .ok true
  | _ :: _ =>
    match containsText obj with
    | .error e => .error e
    | .ok text => .ok (terms.any (fun term => pyInStr term text))

/-- The `max_utc` half of the timestamp filter:
`if max_utc is not None and ts > max_utc: continue`. -/
def tsCheckMax (mx : Option ℚ) (ts : ℚ) : Bool :=
  match mx with
  | some m => !(ts > m)
  | none => true

/-- The body of the timestamp filter (the code guarded by
`if min_utc is not None or max_utc is not None`): read the configured
field, attempt `float` (failure, including an absent field, rejects the
record), then apply the inclusive bounds in order. -/
def tsStageBody (mn mx : Option ℚ) (createdField : String) (obj : JVal) :
    Except PyErr Bool :=
  match pyGet obj createdField with
  | .error e => .error e
  | .ok v =>
    match pyFloat v with
    | none => .ok false
    | some ts =>
      match mn with
      | some m => if ts < m then .ok false else .ok (tsCheckMax mx ts)
      | none => .ok (tsCheckMax mx ts)

/-- The timestamp filter stage: skipped entirely when neither bound is
configured. -/
def tsStage (mn mx : Option ℚ) (createdField : String) (obj : JVal) :
    Except PyErr Bool :=
  match mn, mx with
  | none, none => .ok true
  | _, _ => tsStageBody mn mx createdField obj

/-- The processed configuration of one run, as held in the local variables
of `main` after argument post-processing. -/
structure Config where
  fields : List String
  datetimeFields : List String
  contains : List String
  minUtc : Option ℚ
  maxUtc : Option ℚ
  createdField : String
  maxRowsPerFile : Int
  out : String

/-- The decision the loop body of `main` takes for one parsed record:
`ok none` when a filter rejects it, `ok (some row)` with the encoded CSV
row when it is kept, `error` when an uncaught exception aborts the run. -/
def recordDecision (cfg : Config) (obj : JVal) : Except PyErr (Option (List String)) :=
  match containsStage cfg.contains obj with
  | .error e => .error e
  | .ok false => .ok none
  | .ok true =>
    match tsStage cfg.minUtc cfg.maxUtc cfg.createdField obj with
    | .error e => .error e
    | .ok false => .ok none
    | .ok true =>
      match writeCsvRow cfg.fields cfg.datetimeFields obj with
      | .error e => .error e
      | .ok row => .ok (some row)

/-! ## Output rotation (`make_writer` and the rotation arm of the loop) -/

/-- Index of the last occurrence of a character in a list, if any. -/
def lastIdxOf (c : Char) (cs : List Char) : Option Nat :=
  ((cs.enum.filter (fun ic => ic.2 == c)).getLast?).map (fun ic => ic.1)

/-- Python `os.path.splitext` (POSIX separators): split off the extension at the
last dot of the basename, unless every character before it in the basename
is itself a dot. -/
def splitext (p : String) : String × String :=
  let cs := p.data
  let sepEnd : Nat := match lastIdxOf '/' cs with
    | some i => i + 1
    | none => 0
  match lastIdxOf '.' cs with
  | none => (p, "")
  | some dotIdx =>
    if sepEnd ≤ dotIdx &&
        (cs.enum.any (fun ic =>
          decide (sepEnd ≤ ic.1) && decide (ic.1 < dotIdx) && ic.2 != '.')) then
      (String.mk (cs.take dotIdx), String.mk (cs.drop dotIdx))
    else (p, "")

/-- The path chosen by `make_writer`: the output path itself when not
splitting, else `{base}_part{idx:04d}{ext}` with the extension defaulting
to `.csv`. -/
def makeWriterPath (out : String) : Option Nat → String
  | none => out
  | some idx =>
    let be := splitext out
    let ext := if be.2 == "" then ".csv" else be.2
    be.1 ++ "_part" ++ pad4 idx ++ ext

/-- One output CSV file: its path, the header row written at open time,
and the data rows written so far. -/
structure Part where
  path : String
  header : List String
  data : List (List String)
deriving DecidableEq, Repr

/-- The factory `make_writer(idx)`: open a fresh sink at the computed path and write
the header row. -/
def mkPart (cfg : Config) (idx : Option Nat) : Part :=
  { path := makeWriterPath cfg.out idx, header := cfg.fields, data := [] }

/-- The mutable state of the loop in `main`: rotated-out sinks, the active
sink, its row count, the part index, and the two run counters. -/
structure DriveState where
  closedParts : List Part
  cur : Part
  rowsInCurrent : Nat
  partIdx : Option Nat
  total : Nat
  kept : Nat
deriving Repr

/-- The rotation arm: close the current sink and open the next part
(`part_idx = (part_idx or 0) + 1`). -/
def rotate (cfg : Config) (st : DriveState) : DriveState :=
  let newIdx := st.partIdx.getD 0 + 1
  { st with
    closedParts := st.closedParts ++ [st.cur],
    partIdx := some newIdx,
    cur := mkPart cfg (some newIdx),
    rowsInCurrent := 0 }

/-- The writing arm of the loop for a kept record: append the row to the
active sink, bump the counters, and rotate if the threshold is reached. -/
def keepUpdate (cfg : Config) (st : DriveState) (row : List String) : DriveState :=
  let st1 := { st with
    cur := { st.cur with data := st.cur.data ++ [row] },
    kept := st.kept + 1,
    rowsInCurrent := st.rowsInCurrent + 1 }
  if cfg.maxRowsPerFile > 0 ∧ (st1.rowsInCurrent : Int) ≥ cfg.maxRowsPerFile then
    rotate cfg st1
  else st1

/-- One iteration of `for line in fin`: count the line, skip blank lines
before parsing, skip lines `json.loads` rejects, then filter, encode and
write. -/
def step (cfg : Config) (loads : String → Option JVal) (st : DriveState)
    (line : String) : Except PyErr DriveState :=
  let st := { st with total := st.total + 1 }
  if isBlank line then .ok st
  else
    match loads line with
    | none => .ok st
    | some obj =>
      match recordDecision cfg obj with
      | .error e => .error e
      | .ok none => .ok st
      | .ok (some row) => .ok (keepUpdate cfg st row)

/-- The state of `main` before the loop: a single sink at the plain output
path when not splitting, or part 0001 when splitting. -/
def initState (cfg : Config) : DriveState :=
  let idx : Option Nat := if cfg.maxRowsPerFile > 0 then some 1 else none
  { closedParts := [], cur := mkPart cfg idx, rowsInCurrent := 0,
    partIdx := idx, total := 0, kept := 0 }

/-- The observable outcome of a completed run: the two reported counters
and every output file (rotated-out parts followed by the final active
sink, which the `finally` block closes). -/
structure RunResult where
  total : Nat
  kept : Nat
  parts : List Part
deriving DecidableEq, Repr

/-- A full run of the streaming loop of `main` over the decoded input lines.
An uncaught exception propagates out of the loop (the `finally` block only
closes the active file), so a crashed run reports nothing. -/
def drive (cfg : Config) (loads : String → Option JVal) (lines : List String) :
    Except PyErr RunResult :=
  match lines.foldlM (step cfg loads) (initState cfg) with
  | .error e => .error e
  | .ok st => .ok { total := st.total, kept := st.kept, parts := st.closedParts ++ [st.cur] }

/-- The raw CLI argument values handed to `main` by argparse, with the
argparse defaults. -/
structure Args where
  fields : List String := ["id", "author", "body", "score", "created_utc"]
  asDatetime : List String := []
  contains : List String := []
  minUtc : Option ℚ := none
  maxUtc : Option ℚ := none
  createdField : String := "created_utc"
  maxRowsPerFile : Int := 0
  out : String := "out.csv"

/-- The argument post-processing performed at the top of `main`: the
containment terms are lowercased once; `list(set(args.as_datetime))`
changes only order and multiplicity, and the list is used exclusively
through membership tests, so it is modelled by the original list. -/
def processArgs (a : Args) : Config :=
  { fields := a.fields
    datetimeFields := a.asDatetime
    contains := a.contains.map pyLower
    minUtc := a.minUtc
    maxUtc := a.maxUtc
    createdField := a.createdField
    maxRowsPerFile := a.maxRowsPerFile
    out := a.out }

/-! ## The decompressing reader (`open_any`) -/

/-- Suffix test `path.endswith(suffix)`, on the character list. -/
def pyEndsWith (s suffix : String) : Bool :=
  List.isPrefixOf suffix.data.reverse s.data.reverse

/-- What `open_any` needs from the process environment: whether the
optional `zstandard` package can be imported. -/
structure Env where
  zstdAvailable : Bool

/-- A file-system access performed while opening the input. -/
inductive FileOp where
  | openText (path : String)
  | openBinary (path : String)
deriving DecidableEq, Repr

/-- How `open_any` fails before producing a stream. -/
inductive OpenError where
  | zstdMissing
deriving DecidableEq, Repr

/-- The kind of decoded text stream `open_any` returns. -/
inductive StreamKind where
  | gzipStream
  | zstdStream
  | plainText
deriving DecidableEq, Repr

/-- The reader `open_any(path)`: suffix-based codec selection on the lowercased path.
The returned list records the file accesses performed, in order: for
`.zst` the `import zstandard` is attempted (and on failure the ImportError
is re-raised) before `open(path, "rb")`, so a missing capability performs
no file access at all. -/
def openAny (env : Env) (path : String) : List FileOp × Except OpenError StreamKind :=
  let lower := pyLower path
  if pyEndsWith lower ".gz" then
    ([.openText path], .ok .gzipStream)
  else if pyEndsWith lower ".zst" then
    if env.zstdAvailable then
      ([.openBinary path], .ok .zstdStream)
    else
      ([], .error .zstdMissing)
  else
    ([.openText path], .ok .plainText)

/-! ## Derived notions used by the statements -/

/-- Total number of data rows across all sinks of a run state. -/
def sumRows (st : DriveState) : Nat :=
  (st.closedParts.map (fun p => p.data.length)).sum + st.cur.data.length

/-- Data-row counts of a list of output parts, in order. -/
def partSizes (ps : List Part) : List Nat :=
  ps.map (fun p => p.data.length)

/-- Whether the loop keeps (writes a row for) a given input line under a
given configuration and parser. -/
def keptLine (cfg : Config) (loads : String → Option JVal) (line : String) : Bool :=
  !isBlank line &&
    (match loads line with
     | none => false
     | some v =>
       match recordDecision cfg v with
       | .ok (some _) => true
       | _ => false)

/-- Whether a non-blank line fails JSON parsing. -/
def badJsonLine (loads : String → Option JVal) (line : String) : Bool :=
  !isBlank line && (loads line).isNone

/-- Whether a parsed line is rejected by one of the filters. -/
def rejectedLine (cfg : Config) (loads : String → Option JVal) (line : String) : Bool :=
  !isBlank line &&
    (match loads line with
     | none => false
     | some v =>
       match recordDecision cfg v with
       | .ok none => true
       | _ => false)

/-- A value is a parsed JSON object (a Python dict). -/
def isObj : JVal → Bool
  | .obj _ => true
  | _ => false

/-- A value is a nested structure (a list or a dict). -/
def isNested : JVal → Bool
  | .arr _ => true
  | .obj _ => true
  | _ => false

/-- A value over which the containment stage is total: a string, or a
falsy value (which covers `None`, hence also an absent field). -/
def strOrFalsy (v : JVal) : Bool :=
  match v with
  | .str _ => true
  | _ => !pyTruthy v

/-- The empty-string coercion the containment text applies to a
string-or-falsy `body`/`title` value. -/
def strOrEmpty (v : JVal) : String :=
  match v with
  | .str s => s
  | _ => ""

/-! ## Basic lemmas -/

theorem pyGet_obj (kvs : List (String × JVal)) (k : String) :
    pyGet (.obj kvs) k = .ok (objGet kvs k) := rfl

/-- On a dict, `write_csv_row` never raises and produces exactly one cell
per configured field, each depending only on the value of that field. -/
theorem writeCsvRow_obj (fields datetimeFields : List String)
    (kvs : List (String × JVal)) :
    writeCsvRow fields datetimeFields (.obj kvs) =
      .ok (fields.map (fun f => encodeCell datetimeFields f (objGet kvs f))) := by
  induction fields with
  | nil => rfl
  | cons f rest ih => simp [writeCsvRow, pyGet_obj, ih]

theorem containsStage_nil (obj : JVal) : containsStage [] obj = .ok true := rfl

theorem tsStage_none (cf : String) (obj : JVal) :
    tsStage none none cf obj = .ok true := rfl

/-- With no containment terms and no timestamp bounds, every parsed dict
is kept, with the row given by `write_csv_row`. -/
theorem recordDecision_noFilters (cfg : Config) (kvs : List (String × JVal))
    (hc : cfg.contains = []) (hmn : cfg.minUtc = none) (hmx : cfg.maxUtc = none) :
    recordDecision cfg (.obj kvs) =
      .ok (some (cfg.fields.map (fun f => encodeCell cfg.datetimeFields f (objGet kvs f)))) := by
  unfold recordDecision
  rw [hc, hmn, hmx, containsStage_nil, tsStage_none, writeCsvRow_obj]

theorem keepUpdate_total (cfg : Config) (st : DriveState) (row : List String) :
    (keepUpdate cfg st row).total = st.total := by
  unfold keepUpdate rotate
  dsimp only
  split <;> rfl

theorem keepUpdate_kept (cfg : Config) (st : DriveState) (row : List String) :
    (keepUpdate cfg st row).kept = st.kept + 1 := by
  unfold keepUpdate rotate
  dsimp only
  split <;> rfl

theorem keepUpdate_sumRows (cfg : Config) (st : DriveState) (row : List String) :
    sumRows (keepUpdate cfg st row) = sumRows st + 1 := by
  unfold keepUpdate rotate sumRows mkPart
  dsimp only
  split <;> simp <;> omega

/-- Characterization of one loop iteration that ends without an uncaught
exception: either the line is not kept and only the line counter moves, or
it is kept and the keep/rotate arm runs on the encoded row. -/
theorem step_cases (cfg : Config) (loads : String → Option JVal)
    (st st2 : DriveState) (line : String)
    (h : step cfg loads st line = .ok st2) :
    (keptLine cfg loads line = false ∧ st2 = { st with total := st.total + 1 }) ∨
    (keptLine cfg loads line = true ∧
      ∃ row, st2 = keepUpdate cfg { st with total := st.total + 1 } row) := by
  unfold step at h
  cases hb : isBlank line with
  | true =>
    refine Or.inl ⟨by simp [keptLine, hb], ?_⟩
    simp only [hb, if_true, Except.ok.injEq] at h
    exact h.symm
  | false =>
    simp only [hb, Bool.false_eq_true, if_false] at h
    cases hl : loads line with
    | none =>
      refine Or.inl ⟨by simp [keptLine, hb, hl], ?_⟩
      simp only [hl, Except.ok.injEq] at h
      exact h.symm
    | some v =>
      simp only [hl] at h
      cases hd : recordDecision cfg v with
      | error e =>
        simp only [hd] at h
        exact Except.noConfusion h
      | ok o =>
        simp only [hd] at h
        cases o with
        | none =>
          refine Or.inl ⟨by simp [keptLine, hb, hl, hd], ?_⟩
          simp only [Except.ok.injEq] at h
          exact h.symm
        | some row =>
          refine Or.inr ⟨by simp [keptLine, hb, hl, hd], row, ?_⟩
          simp only [Except.ok.injEq] at h
          exact h.symm

/-- A crash-free iteration means the decision for the record was not an
exception. -/
theorem step_ok_no_error (cfg : Config) (loads : String → Option JVal)
    (st st2 : DriveState) (line : String) (v : JVal) (e : PyErr)
    (h : step cfg loads st line = .ok st2)
    (hb : isBlank line = false) (hl : loads line = some v) :
    recordDecision cfg v ≠ .error e := by
  intro hd
  unfold step at h
  simp only [hb, Bool.false_eq_true, if_false, hl, hd] at h
  exact Except.noConfusion h

theorem except_bind_ok {α β ε : Type} (a : α) (f : α → Except ε β) :
    (Except.ok a >>= f) = f a := rfl

theorem except_bind_error {α β ε : Type} (e : ε) (f : α → Except ε β) :
    ((Except.error e : Except ε α) >>= f) = .error e := rfl

theorem sumRows_total_update (st : DriveState) (n : Nat) :
    sumRows { st with total := n } = sumRows st := rfl

theorem ite_false_nat : (if false = true then (1 : Nat) else 0) = 0 := rfl

theorem ite_true_nat : (if true = true then (1 : Nat) else 0) = 1 := rfl

/-- Counter bookkeeping of a completed loop over any suffix of the input:
the total counter advances by the number of lines, the kept counter and
the number of rows across all sinks advance by the number of kept lines. -/
theorem fold_counts (cfg : Config) (loads : String → Option JVal) :
    ∀ (lines : List String) (st st2 : DriveState),
    List.foldlM (step cfg loads) st lines = .ok st2 →
    st2.total = st.total + lines.length ∧
    st2.kept = st.kept + lines.countP (keptLine cfg loads) ∧
    sumRows st2 = sumRows st + lines.countP (keptLine cfg loads) := by
  intro lines
  induction lines with
  | nil =>
    intro st st2 h
    simp only [List.foldlM_nil] at h
    cases h
    simp
  | cons l ls ih =>
    intro st st2 h
    rw [List.foldlM_cons] at h
    cases hstep : step cfg loads st l with
    | error e =>
      rw [hstep, except_bind_error] at h
      exact Except.noConfusion h
    | ok st1 =>
      rw [hstep, except_bind_ok] at h
      obtain ⟨ht, hk, hs⟩ := ih st1 st2 h
      rcases step_cases cfg loads st st1 l hstep with ⟨hkl, rfl⟩ | ⟨hkl, row, rfl⟩
      · simp only [sumRows] at hs ⊢
        dsimp only at ht hk hs
        simp only [List.length_cons, List.countP_cons, hkl, ite_false_nat, if_true,
          if_false, Nat.add_zero]
        exact ⟨by omega, by omega, by omega⟩
      · rw [keepUpdate_total] at ht
        rw [keepUpdate_kept] at hk
        rw [keepUpdate_sumRows] at hs
        simp only [sumRows] at hs ⊢
        dsimp only at ht hk hs
        simp only [List.length_cons, List.countP_cons, hkl, ite_true_nat, if_true,
          if_false]
        exact ⟨by omega, by omega, by omega⟩

/-- No record of a completed (crash-free) run raised an uncaught
exception in its decision. -/
theorem fold_no_error (cfg : Config) (loads : String → Option JVal) :
    ∀ (lines : List String) (st st2 : DriveState),
    List.foldlM (step cfg loads) st lines = .ok st2 →
    ∀ l ∈ lines, ∀ (v : JVal) (e : PyErr), isBlank l = false → loads l = some v →
      recordDecision cfg v ≠ .error e := by
  intro lines
  induction lines with
  | nil => intro st st2 h l hl; cases hl
  | cons a ls ih =>
    intro st st2 h l hl v e hb hload
    rw [List.foldlM_cons] at h
    cases hstep : step cfg loads st a with
    | error e2 =>
      rw [hstep, except_bind_error] at h
      exact Except.noConfusion h
    | ok st1 =>
      rw [hstep, except_bind_ok] at h
      cases hl with
      | head => exact step_ok_no_error cfg loads st st1 a v e hstep hb hload
      | tail _ hmem => exact ih st1 st2 h l hmem v e hb hload

/-- If the head line classifies as blank / bad JSON / rejected / kept,
the corresponding step succeeds; if its decision errors, the step
errors. -/
theorem step_error_out (cfg : Config) (loads : String → Option JVal)
    (st : DriveState) (line : String) (v : JVal) (e : PyErr)
    (hb : isBlank line = false) (hl : loads line = some v)
    (hd : recordDecision cfg v = .error e) :
    step cfg loads st line = .error e := by
  unfold step
  simp only [hb, Bool.false_eq_true, if_false, hl, hd]

/-- Every line of a completed run falls in exactly one of the four
classes, so the line count is the sum of the four class counts. -/
theorem fold_partition (cfg : Config) (loads : String → Option JVal) :
    ∀ (lines : List String) (st st2 : DriveState),
    List.foldlM (step cfg loads) st lines = .ok st2 →
    lines.length = lines.countP isBlank + lines.countP (badJsonLine loads) +
      lines.countP (rejectedLine cfg loads) + lines.countP (keptLine cfg loads) := by
  intro lines
  induction lines with
  | nil => intro st st2 h; simp
  | cons l ls ih =>
    intro st st2 h
    rw [List.foldlM_cons] at h
    cases hstep : step cfg loads st l with
    | error e =>
      rw [hstep, except_bind_error] at h
      exact Except.noConfusion h
    | ok st1 =>
      rw [hstep, except_bind_ok] at h
      have htail := ih st1 st2 h
      simp only [List.length_cons, List.countP_cons]
      cases hb : isBlank l with
      | true =>
        simp only [badJsonLine, rejectedLine, keptLine, hb, Bool.not_true,
          Bool.false_and, if_true, if_false]
        simp
        omega
      | false =>
        cases hload : loads l with
        | none =>
          simp only [badJsonLine, rejectedLine, keptLine, hb, hload, Option.isNone_none,
            Bool.not_false, Bool.true_and, Bool.and_true, if_true, if_false]
          simp
          omega
        | some v =>
          cases hd : recordDecision cfg v with
          | error e =>
            rw [step_error_out cfg loads st l v e hb hload hd] at hstep
            exact Except.noConfusion hstep
          | ok o =>
            cases o with
            | none =>
              simp only [badJsonLine, rejectedLine, keptLine, hb, hload, hd,
                Option.isNone_some, Bool.not_false, Bool.true_and, Bool.and_false,
                if_true, if_false]
              simp
              omega
            | some row =>
              simp only [badJsonLine, rejectedLine, keptLine, hb, hload, hd,
                Option.isNone_some, Bool.not_false, Bool.true_and, Bool.and_false,
                if_true, if_false]
              simp
              omega

/-- The loop consults the parser only on non-blank lines: two parsers that
agree there produce identical steps. -/
theorem step_congr (cfg : Config) (loads loads2 : String → Option JVal)
    (hagree : ∀ l, isBlank l = false → loads l = loads2 l)
    (st : DriveState) (line : String) :
    step cfg loads st line = step cfg loads2 st line := by
  unfold step
  cases hb : isBlank line with
  | true => simp [hb]
  | false => simp only [hb, Bool.false_eq_true, if_false, hagree line hb]

/-- Whole-run version of `step_congr`. -/
theorem drive_loads_agree (cfg : Config) (loads loads2 : String → Option JVal)
    (hagree : ∀ l, isBlank l = false → loads l = loads2 l) (lines : List String) :
    drive cfg loads lines = drive cfg loads2 lines := by
  unfold drive
  have hfold : ∀ (ls : List String) (st : DriveState),
      List.foldlM (step cfg loads) st ls = List.foldlM (step cfg loads2) st ls := by
    intro ls
    induction ls with
    | nil => intro st; rfl
    | cons a rest ih =>
      intro st
      rw [List.foldlM_cons, List.foldlM_cons, step_congr cfg loads loads2 hagree st a]
      cases step cfg loads2 st a with
      | error e => rfl
      | ok st1 => rw [except_bind_ok, except_bind_ok, ih st1]
  rw [hfold]

/-- The invariant maintained by the loop when output splitting is enabled
(threshold `t > 0`): the row counter of the active sink matches its data, the
active sink holds fewer than `t` rows, every rotated-out part holds
exactly `t` rows, the kept counter decomposes over the parts, and part
indices, paths and headers follow the `make_writer` convention. -/
def RotInv (cfg : Config) (t : Nat) (st : DriveState) : Prop :=
  st.rowsInCurrent = st.cur.data.length ∧
  st.cur.data.length < t ∧
  (st.closedParts.map (fun p => p.data.length) = List.replicate st.closedParts.length t) ∧
  st.kept = t * st.closedParts.length + st.cur.data.length ∧
  st.partIdx = some (st.closedParts.length + 1) ∧
  st.cur.path = makeWriterPath cfg.out (some (st.closedParts.length + 1)) ∧
  st.cur.header = cfg.fields ∧
  (st.closedParts.map (fun p => p.path) =
    (List.range st.closedParts.length).map (fun i => makeWriterPath cfg.out (some (i + 1)))) ∧
  (∀ p ∈ st.closedParts, p.header = cfg.fields)

theorem rotInv_init (cfg : Config) (ht : 0 < cfg.maxRowsPerFile) :
    RotInv cfg cfg.maxRowsPerFile.toNat (initState cfg) := by
  unfold RotInv initState mkPart
  rw [if_pos ht]
  dsimp only
  refine ⟨rfl, by simp only [List.length_nil]; omega, rfl, rfl, rfl, rfl, rfl, rfl, ?_⟩
  intro p hp
  cases hp

theorem rotInv_step (cfg : Config) (loads : String → Option JVal)
    (st st2 : DriveState) (line : String) (ht : 0 < cfg.maxRowsPerFile)
    (hinv : RotInv cfg cfg.maxRowsPerFile.toNat st)
    (h : step cfg loads st line = .ok st2) :
    RotInv cfg cfg.maxRowsPerFile.toNat st2 := by
  rcases step_cases cfg loads st st2 line h with ⟨_, rfl⟩ | ⟨_, row, rfl⟩
  · exact hinv
  · obtain ⟨hric, hlt, hlen, hkept, hidx, hpath, hhdr, hpaths, hhdrs⟩ := hinv
    unfold RotInv keepUpdate rotate mkPart
    dsimp only
    split
    · -- rotation: the active sink just reached exactly t rows
      rename_i hc
      have hct : st.cur.data.length + 1 = cfg.maxRowsPerFile.toNat := by
        obtain ⟨-, hc2⟩ := hc
        omega
      rw [hidx]
      dsimp only [Option.getD_some]
      refine ⟨rfl, by simp only [List.length_nil]; omega, ?_, ?_, ?_, ?_, rfl, ?_, ?_⟩
      · simp only [List.map_append, List.map_cons, List.map_nil, hlen,
          List.length_append, List.length_cons, List.length_nil,
          Nat.add_zero, Nat.zero_add]
        rw [hct, List.replicate_succ']
      · simp only [List.length_append, List.length_cons, List.length_nil,
          Nat.add_zero, Nat.zero_add]
        rw [Nat.mul_add, Nat.mul_one]
        omega
      · simp
      · simp
      · simp only [List.map_append, List.map_cons, List.map_nil, hpaths,
          List.length_append, List.length_cons, List.length_nil]
        rw [List.range_succ]
        simp [hpath]
      · intro p hp
        rcases List.mem_append.mp hp with hp1 | hp2
        · exact hhdrs p hp1
        · rcases List.mem_singleton.mp hp2 with rfl
          exact hhdr
    · -- below the threshold: stay on the active sink
      rename_i hc
      rw [not_and_or] at hc
      have hlt2 : st.cur.data.length + 1 < cfg.maxRowsPerFile.toNat := by
        rcases hc with hc1 | hc2
        · exact absurd ht hc1
        · omega
      refine ⟨?_, by simpa using hlt2, hlen, ?_, hidx, hpath, hhdr, hpaths, hhdrs⟩
      · rw [hric]
        simp
      · rw [hkept]
        simp
        omega

theorem fold_rotInv (cfg : Config) (loads : String → Option JVal)
    (ht : 0 < cfg.maxRowsPerFile) :
    ∀ (lines : List String) (st st2 : DriveState),
    RotInv cfg cfg.maxRowsPerFile.toNat st →
    List.foldlM (step cfg loads) st lines = .ok st2 →
    RotInv cfg cfg.maxRowsPerFile.toNat st2 := by
  intro lines
  induction lines with
  | nil =>
    intro st st2 hinv h
    simp only [List.foldlM_nil] at h
    cases h
    exact hinv
  | cons l ls ih =>
    intro st st2 hinv h
    rw [List.foldlM_cons] at h
    cases hstep : step cfg loads st l with
    | error e =>
      rw [hstep, except_bind_error] at h
      exact Except.noConfusion h
    | ok st1 =>
      rw [hstep, except_bind_ok] at h
      exact ih st1 st2 (rotInv_step cfg loads st st1 l ht hinv hstep) h

/-- The counters reported by a completed run: the total equals the number
of input lines, the kept counter counts the kept lines, the data rows
across all output files equal the kept counter, and the four line classes
partition the input. -/
theorem drive_ok_counts (cfg : Config) (loads : String → Option JVal)
    (lines : List String) (r : RunResult) (h : drive cfg loads lines = .ok r) :
    r.total = lines.length ∧
    r.kept = lines.countP (keptLine cfg loads) ∧
    (partSizes r.parts).sum = r.kept ∧
    lines.length = lines.countP isBlank + lines.countP (badJsonLine loads) +
      lines.countP (rejectedLine cfg loads) + lines.countP (keptLine cfg loads) := by
  unfold drive at h
  cases hf : List.foldlM (step cfg loads) (initState cfg) lines with
  | error e => rw [hf] at h; exact Except.noConfusion h
  | ok st =>
    rw [hf] at h
    obtain ⟨ht, hk, hs⟩ := fold_counts cfg loads lines (initState cfg) st hf
    have hpart := fold_partition cfg loads lines (initState cfg) st hf
    cases h
    dsimp only
    refine ⟨?_, ?_, ?_, hpart⟩
    · simpa [initState] using ht
    · simpa [initState] using hk
    · have hik : (initState cfg).kept = 0 := rfl
      have hinit : sumRows (initState cfg) = 0 := rfl
      rw [hinit] at hs
      rw [hik] at hk
      have hps : (partSizes (st.closedParts ++ [st.cur])).sum = sumRows st := by
        simp [partSizes, sumRows]
      rw [hps, hs]
      omega

/-- Structure of the output files of a completed run with rotation
enabled: the data rows fall into full parts of exactly `t` rows followed
by one final part holding the remainder, the path of every part follows the
`_partNNNN` convention in order starting at 1, and every part begins with
the header. -/
theorem drive_rot (cfg : Config) (loads : String → Option JVal)
    (lines : List String) (r : RunResult) (ht : 0 < cfg.maxRowsPerFile)
    (h : drive cfg loads lines = .ok r) :
    partSizes r.parts =
      List.replicate (r.kept / cfg.maxRowsPerFile.toNat) cfg.maxRowsPerFile.toNat ++
        [r.kept % cfg.maxRowsPerFile.toNat] ∧
    r.parts.map (fun p => p.path) =
      (List.range r.parts.length).map (fun i => makeWriterPath cfg.out (some (i + 1))) ∧
    ∀ p ∈ r.parts, p.header = cfg.fields := by
  unfold drive at h
  cases hf : List.foldlM (step cfg loads) (initState cfg) lines with
  | error e => rw [hf] at h; exact Except.noConfusion h
  | ok st =>
    rw [hf] at h
    have hinv := fold_rotInv cfg loads ht lines (initState cfg) st (rotInv_init cfg ht) hf
    obtain ⟨hric, hlt, hlen, hkept, hidx, hpath, hhdr, hpaths, hhdrs⟩ := hinv
    cases h
    have hdiv : st.kept / cfg.maxRowsPerFile.toNat = st.closedParts.length := by
      rw [hkept, Nat.mul_add_div (by omega)]
      rw [Nat.div_eq_of_lt hlt]
      omega
    have hmod : st.kept % cfg.maxRowsPerFile.toNat = st.cur.data.length := by
      rw [hkept, Nat.mul_add_mod]
      exact Nat.mod_eq_of_lt hlt
    refine ⟨?_, ?_, ?_⟩
    · simp only [partSizes, List.map_append, List.map_cons, List.map_nil, hlen,
        hdiv, hmod]
    · simp only [List.map_append, List.map_cons, List.map_nil, hpaths, hpath,
        List.length_append, List.length_cons, List.length_nil]
      rw [List.range_succ]
      simp
    · intro p hp
      rcases List.mem_append.mp hp with hp1 | hp2
      · exact hhdrs p hp1
      · rcases List.mem_singleton.mp hp2 with rfl
        exact hhdr

/-! ## Filter-stage lemmas -/

theorem pyOrEmpty_good (v : JVal) (h : strOrFalsy v = true) :
    pyOrEmpty v = .ok (strOrEmpty v) := by
  cases v with
  | str s =>
    unfold pyOrEmpty strOrEmpty pyTruthy
    cases hs : s.isEmpty with
    | true =>
      rw [String.isEmpty_iff] at hs
      simp [hs]
    | false => simp [hs]
  | null => rfl
  | bool b =>
    unfold strOrFalsy pyTruthy at h
    unfold pyOrEmpty strOrEmpty pyTruthy
    cases b with
    | false => rfl
    | true => simp at h
  | int n =>
    unfold strOrFalsy pyTruthy at h
    unfold pyOrEmpty strOrEmpty pyTruthy
    simp at h
    simp [h]
  | float q =>
    unfold strOrFalsy pyTruthy at h
    unfold pyOrEmpty strOrEmpty pyTruthy
    simp at h
    simp [h]
  | arr xs =>
    unfold strOrFalsy pyTruthy at h
    unfold pyOrEmpty strOrEmpty pyTruthy
    simp at h
    simp [h]
  | obj kvs =>
    unfold strOrFalsy pyTruthy at h
    unfold pyOrEmpty strOrEmpty pyTruthy
    simp at h
    simp [h]

theorem pyOrEmpty_bad (v : JVal) (h : strOrFalsy v = false) :
    pyOrEmpty v = .error .typeError := by
  cases v with
  | str s => simp [strOrFalsy] at h
  | null => simp [strOrFalsy, pyTruthy] at h
  | bool b =>
    unfold strOrFalsy pyTruthy at h
    unfold pyOrEmpty pyTruthy
    cases b with
    | false => simp at h
    | true => rfl
  | int n =>
    unfold strOrFalsy pyTruthy at h
    unfold pyOrEmpty pyTruthy
    simp at h
    simp [h]
  | float q =>
    unfold strOrFalsy pyTruthy at h
    unfold pyOrEmpty pyTruthy
    simp at h
    simp [h]
  | arr xs =>
    unfold strOrFalsy pyTruthy at h
    unfold pyOrEmpty pyTruthy
    simp at h
    simp [h]
  | obj kvs =>
    unfold strOrFalsy pyTruthy at h
    unfold pyOrEmpty pyTruthy
    simp at h
    simp [h]

/-- On a dict whose `body` and `title` values are strings or falsy, the
containment text is built without an exception, as the lowercased
space-joined concatenation with missing/falsy fields as empty strings. -/
theorem containsText_good (kvs : List (String × JVal))
    (hb : strOrFalsy (objGet kvs "body") = true)
    (ht : strOrFalsy (objGet kvs "title") = true) :
    containsText (.obj kvs) =
      .ok (pyLower (strOrEmpty (objGet kvs "body") ++ " " ++ strOrEmpty (objGet kvs "title"))) := by
  simp only [containsText, pyGet_obj, pyOrEmpty_good _ hb, pyOrEmpty_good _ ht]

/-- The containment stage crashes with a `TypeError` exactly when `body`
is a truthy non-string, or `body` is fine and `title` is a truthy
non-string. -/
theorem containsText_error_iff (kvs : List (String × JVal)) :
    containsText (.obj kvs) = .error .typeError ↔
      ¬(strOrFalsy (objGet kvs "body") = true ∧ strOrFalsy (objGet kvs "title") = true) := by
  constructor
  · intro h hgood
    rw [containsText_good kvs hgood.1 hgood.2] at h
    exact Except.noConfusion h
  · intro hgood
    cases hb : strOrFalsy (objGet kvs "body") with
    | false =>
      simp only [containsText, pyGet_obj, pyOrEmpty_bad _ hb]
    | true =>
      cases htl : strOrFalsy (objGet kvs "title") with
      | false =>
        simp only [containsText, pyGet_obj, pyOrEmpty_good _ hb, pyOrEmpty_bad _ htl]
      | true => exact absurd ⟨hb, htl⟩ hgood

/-- With terms configured and well-typed `body`/`title`, the containment
stage passes exactly when some term occurs in the built text. -/
theorem containsStage_good (terms : List String) (t0 : String) (ts : List String)
    (hterms : terms = t0 :: ts) (kvs : List (String × JVal))
    (hb : strOrFalsy (objGet kvs "body") = true)
    (ht : strOrFalsy (objGet kvs "title") = true) :
    containsStage terms (.obj kvs) =
      .ok (terms.any (fun term => pyInStr term
        (pyLower (strOrEmpty (objGet kvs "body") ++ " " ++ strOrEmpty (objGet kvs "title"))))) := by
  subst hterms
  simp only [containsStage, containsText_good kvs hb ht]

theorem tsCheckMax_true (mx : Option ℚ) (ts : ℚ) (h : tsCheckMax mx ts = true) :
    ∀ M, mx = some M → ts ≤ M := by
  intro M hM
  subst hM
  unfold tsCheckMax at h
  simp at h
  exact h

/-- With at least one bound configured, the stage runs its body. -/
theorem tsStage_eq_body (mn mx : Option ℚ) (cf : String) (obj : JVal)
    (hb : mn.isSome ∨ mx.isSome) :
    tsStage mn mx cf obj = tsStageBody mn mx cf obj := by
  cases mn with
  | some m => cases mx <;> rfl
  | none =>
    cases mx with
    | some M => rfl
    | none => simp at hb

/-- The timestamp stage, when a bound is configured: a record passing the
stage has a timestamp field that converted to a number within both
configured bounds (inclusive). -/
theorem tsStage_true (mn mx : Option ℚ) (cf : String) (obj : JVal)
    (hb : mn.isSome ∨ mx.isSome)
    (h : tsStage mn mx cf obj = .ok true) :
    ∃ v ts, pyGet obj cf = .ok v ∧ pyFloat v = some ts ∧
      (∀ m, mn = some m → m ≤ ts) ∧ (∀ M, mx = some M → ts ≤ M) := by
  rw [tsStage_eq_body mn mx cf obj hb] at h
  unfold tsStageBody at h
  cases hg : pyGet obj cf with
  | error e => rw [hg] at h; exact Except.noConfusion h
  | ok v =>
    simp only [hg] at h
    cases hfv : pyFloat v with
    | none => simp only [hfv] at h; exact absurd h (by simp)
    | some ts =>
      simp only [hfv] at h
      cases hmn : mn with
      | some m =>
        rw [hmn] at h
        dsimp only at h
        by_cases hlt : ts < m
        · rw [if_pos hlt] at h
          exact absurd h (by simp)
        · rw [if_neg hlt] at h
          simp only [Except.ok.injEq] at h
          have hmax := tsCheckMax_true mx ts h
          refine ⟨v, ts, rfl, hfv, ?_, hmax⟩
          intro m2 hm2
          cases hm2
          exact not_lt.mp hlt
      | none =>
        rw [hmn] at h
        dsimp only at h
        simp only [Except.ok.injEq] at h
        have hmax := tsCheckMax_true mx ts h
        refine ⟨v, ts, rfl, hfv, ?_, hmax⟩
        intro m2 hm2
        exact Option.noConfusion hm2

/-- The timestamp stage, when a bound is configured: an absent or
non-convertible timestamp field rejects the record without raising. -/
theorem tsStage_reject (mn mx : Option ℚ) (cf : String) (obj : JVal) (v : JVal)
    (hb : mn.isSome ∨ mx.isSome)
    (hg : pyGet obj cf = .ok v) (hfv : pyFloat v = none) :
    tsStage mn mx cf obj = .ok false := by
  rw [tsStage_eq_body mn mx cf obj hb]
  simp only [tsStageBody, hg, hfv]

/-- A record kept by the loop passed the timestamp stage. -/
theorem recordDecision_kept_ts (cfg : Config) (obj : JVal) (row : List String)
    (h : recordDecision cfg obj = .ok (some row)) :
    tsStage cfg.minUtc cfg.maxUtc cfg.createdField obj = .ok true := by
  unfold recordDecision at h
  cases hc : containsStage cfg.contains obj with
  | error e => rw [hc] at h; exact Except.noConfusion h
  | ok cok =>
    rw [hc] at h
    cases cok with
    | false => simp at h
    | true =>
      cases hts : tsStage cfg.minUtc cfg.maxUtc cfg.createdField obj with
      | error e => rw [hts] at h; exact Except.noConfusion h
      | ok tok =>
        rw [hts] at h
        cases tok with
        | false => simp at h
        | true => rfl

/-- A record kept by the loop passed the containment stage. -/
theorem recordDecision_kept_contains (cfg : Config) (obj : JVal) (row : List String)
    (h : recordDecision cfg obj = .ok (some row)) :
    containsStage cfg.contains obj = .ok true := by
  unfold recordDecision at h
  cases hc : containsStage cfg.contains obj with
  | error e => rw [hc] at h; exact Except.noConfusion h
  | ok cok =>
    rw [hc] at h
    cases cok with
    | false => simp at h
    | true => rfl

/-! ## Evaluation lemmas for the rational boundary

Rational arithmetic does not reduce definitionally (its normalization
uses well-founded recursion), so concrete timestamp computations go
through an integer-cast lemma and the kernel-reducible integer core. -/

theorem rat_floor_eq_int_floor (q : ℚ) : q.floor = ⌊q⌋ := by
  rw [Rat.floor_def', Rat.floor_def]

theorem rhe_intCast (m : Int) : rhe ((m : ℚ)) = m := by
  unfold rhe
  dsimp only
  rw [rat_floor_eq_int_floor, Int.floor_intCast]
  norm_num

theorem utcIso_intCast (n : Int) : utcIso ((n : ℚ)) = utcIsoSec n := by
  unfold utcIso
  have h1 : ((n : ℚ) * 1000000) = ((n * 1000000 : Int) : ℚ) := by push_cast; ring
  rw [h1, rhe_intCast]
  have hb : (1000000 : Int) ≠ 0 := by norm_num
  dsimp only
  rw [Int.mul_fdiv_cancel n hb]

/-! ## Claim theorems -/

theorem zst_not_gz (s : String) (h : pyEndsWith s ".zst" = true) :
    pyEndsWith s ".gz" = false := by
  unfold pyEndsWith at h ⊢
  rw [show (".zst" : String).data.reverse = ['t', 's', 'z', '.'] from rfl] at h
  rw [show (".gz" : String).data.reverse = ['z', 'g', '.'] from rfl]
  cases hrev : s.data.reverse with
  | nil => rw [hrev] at h; exact absurd h (by decide)
  | cons c rest =>
    rw [hrev] at h
    simp only [List.isPrefixOf, Bool.and_eq_true, beq_iff_eq] at h
    obtain ⟨hc, -⟩ := h
    subst hc
    simp [List.isPrefixOf]

/-- C8: for an input path whose lowercased form ends in `.zst`, when the
`zstandard` package is unavailable, `open_any` fails with the
capability-missing error (the re-raised ImportError, an environment error
distinct from any data error) and performs no file access at all: the
underlying byte stream is never opened, so no data is read. -/
theorem c8_zstd_capability_gate (env : Env) (path : String)
    (hz : pyEndsWith (pyLower path) ".zst" = true)
    (ha : env.zstdAvailable = false) :
    openAny env path = ([], .error .zstdMissing) := by
  unfold openAny
  dsimp only
  rw [zst_not_gz _ hz, hz, ha]
  simp

/-- Witness for C8 at the concrete path `data.ndjson.zst` in an
environment without the zstandard package. -/
theorem c8_zstd_capability_gate_witness :
    pyEndsWith (pyLower "data.ndjson.zst") ".zst" = true ∧
    openAny { zstdAvailable := false } "data.ndjson.zst" = ([], .error .zstdMissing) :=
  ⟨by decide, c8_zstd_capability_gate { zstdAvailable := false } "data.ndjson.zst"
    (by decide) rfl⟩

/-- The datetime arm of `write_csv_row` on a non-null value: convert with
`float`, normalize milliseconds, format; any failure falls back to
`str(val)`. -/
theorem encodeCell_dt_not_null (datetimeFields : List String) (f : String) (val : JVal)
    (hf : f ∈ datetimeFields) (hnn : val ≠ .null) :
    encodeCell datetimeFields f val =
      match pyFloat val with
      | some ts =>
        (match utcIso (if ts > 10000000000 then ts / 1000 else ts) with
         | some iso => iso
         | none => pyStr val)
      | none => pyStr val := by
  cases val with
  | null => exact absurd rfl hnn
  | bool b => simp only [encodeCell, if_pos hf]
  | int n => simp only [encodeCell, if_pos hf]
  | float q => simp only [encodeCell, if_pos hf]
  | str s => simp only [encodeCell, if_pos hf]
  | arr xs => simp only [encodeCell, if_pos hf]
  | obj kvs => simp only [encodeCell, if_pos hf]

/-- C5: for a field in the datetime set, the row encoder emits one cell
per field independently; a value that `float`-converts to `ts` is
normalized from milliseconds when `ts` exceeds 10,000,000,000 and
formatted as `YYYY-MM-DDTHH:MM:SSZ` in UTC, with conversion failure
falling back to `str(val)`; a value that does not convert (other than
`None`, which yields the empty cell) also falls back to `str(val)`.  In
particular `1609459200` (seconds) and `1609459200000` (milliseconds) both
encode to `2021-01-01T00:00:00Z`. -/
theorem c5_datetime_normalization (fields datetimeFields : List String)
    (kvs : List (String × JVal)) (f : String) (hf : f ∈ datetimeFields) :
    writeCsvRow fields datetimeFields (.obj kvs) =
      .ok (fields.map (fun g => encodeCell datetimeFields g (objGet kvs g))) ∧
    (∀ ts, pyFloat (objGet kvs f) = some ts →
      encodeCell datetimeFields f (objGet kvs f) =
        (match utcIso (if ts > 10000000000 then ts / 1000 else ts) with
         | some iso => iso
         | none => pyStr (objGet kvs f))) ∧
    (pyFloat (objGet kvs f) = none → objGet kvs f ≠ .null →
      encodeCell datetimeFields f (objGet kvs f) = pyStr (objGet kvs f)) ∧
    encodeCell ["created_utc"] "created_utc" (.int 1609459200) = "2021-01-01T00:00:00Z" ∧
    encodeCell ["created_utc"] "created_utc" (.int 1609459200000) = "2021-01-01T00:00:00Z" := by
  refine ⟨writeCsvRow_obj fields datetimeFields kvs, ?_, ?_, ?_, ?_⟩
  · intro ts hts
    have hnn : objGet kvs f ≠ .null := by
      intro hnull
      rw [hnull] at hts
      exact Option.noConfusion hts
    rw [encodeCell_dt_not_null datetimeFields f _ hf hnn, hts]
  · intro hts hnn
    rw [encodeCell_dt_not_null datetimeFields f _ hf hnn, hts]
  · rw [encodeCell_dt_not_null ["created_utc"] "created_utc" (.int 1609459200)
      (by decide) (by intro hh; exact JVal.noConfusion hh)]
    rw [show pyFloat (.int 1609459200) = some ((1609459200 : Int) : ℚ) from rfl]
    dsimp only
    rw [if_neg (by push_cast; norm_num), utcIso_intCast]
    rfl
  · rw [encodeCell_dt_not_null ["created_utc"] "created_utc" (.int 1609459200000)
      (by decide) (by intro hh; exact JVal.noConfusion hh)]
    rw [show pyFloat (.int 1609459200000) = some ((1609459200000 : Int) : ℚ) from rfl]
    dsimp only
    rw [if_pos (by push_cast; norm_num)]
    rw [show ((1609459200000 : Int) : ℚ) / 1000 = ((1609459200 : Int) : ℚ) by
      push_cast; norm_num]
    rw [utcIso_intCast]
    rfl

/-- Witness for C5 at the two concrete timestamps of the claim and a
minimal record. -/
theorem c5_datetime_normalization_witness :
    "created_utc" ∈ ["created_utc"] ∧
    writeCsvRow ["created_utc"] ["created_utc"] (.obj [("created_utc", .int 1609459200)]) =
      .ok ["2021-01-01T00:00:00Z"] ∧
    encodeCell ["created_utc"] "created_utc" (.int 1609459200000) = "2021-01-01T00:00:00Z" := by
  have h := c5_datetime_normalization ["created_utc"] ["created_utc"]
    [("created_utc", .int 1609459200)] "created_utc" (by decide)
  refine ⟨by decide, ?_, h.2.2.2.2⟩
  rw [h.1]
  simp only [List.map_cons, List.map_nil]
  rw [show objGet [("created_utc", JVal.int 1609459200)] "created_utc" =
    JVal.int 1609459200 from rfl]
  rw [h.2.2.2.1]

/-- Counterexample to C6 as stated: a nested value (the list `["a"]`) in a
field that is in the Datetime Field Set is emitted as the native Python
stringification `['a']` (the `str(val)` fallback of the datetime arm),
not as its JSON serialization `["a"]`. -/
theorem c6_nested_serialization_counterexample :
    writeCsvRow ["t"] ["t"] (.obj [("t", .arr [.str "a"])]) = .ok ["[\x27a\x27]"] ∧
    jsonDumps (.arr [.str "a"]) = "[\"a\"]" ∧
    ("[\x27a\x27]" : String) ≠ "[\"a\"]" := by
  refine ⟨rfl, rfl, by decide⟩

/-- C6 (amended): for a field NOT in the Datetime Field Set, a nested
value (list or dict) is emitted as its `json.dumps` serialization (with
`ensure_ascii=False`), not as the native stringification; for a field in
the Datetime Field Set, a nested value instead takes the datetime-arm
fallback and is emitted as the native stringification `str(val)`. -/
theorem c6_nested_serialization (datetimeFields : List String) (f g : String)
    (v : JVal) (hf : f ∉ datetimeFields) (hg : g ∈ datetimeFields)
    (hv : isNested v = true) :
    encodeCell datetimeFields f v = jsonDumps v ∧
    encodeCell datetimeFields g v = pyStr v := by
  cases v with
  | arr xs =>
    constructor
    · simp only [encodeCell, if_neg hf]
    · simp only [encodeCell, if_pos hg, pyFloat]
  | obj kvs =>
    constructor
    · simp only [encodeCell, if_neg hf]
    · simp only [encodeCell, if_pos hg, pyFloat]
  | null => simp [isNested] at hv
  | bool b => simp [isNested] at hv
  | int n => simp [isNested] at hv
  | float q => simp [isNested] at hv
  | str s => simp [isNested] at hv

/-- Witness for C6 (amended) at the concrete nested value `["a"]`. -/
theorem c6_nested_serialization_witness :
    ("t" ∉ ["u"] ∧ "u" ∈ ["u"] ∧ isNested (.arr [.str "a"]) = true) ∧
    encodeCell ["u"] "t" (.arr [.str "a"]) = jsonDumps (.arr [.str "a"]) ∧
    encodeCell ["u"] "u" (.arr [.str "a"]) = pyStr (.arr [.str "a"]) := by
  have h := c6_nested_serialization ["u"] "t" "u" (.arr [.str "a"])
    (by decide) (by decide) rfl
  exact ⟨⟨by decide, by decide, rfl⟩, h.1, h.2⟩

/-- The CLI arguments of the C3 scenario: only timestamp bounds set. -/
def c3Args (mn mx : Option ℚ) : Args :=
  { minUtc := mn
    maxUtc := mx }

/-- The record of the C3 scenario. -/
def c3Obj : JVal := .obj [("created_utc", .int 1609459200)]

/-- C3: with a min or max timestamp bound configured, a record is kept
only if its configured timestamp field `float`-converts to a number `ts`
with `min ≤ ts` and `ts ≤ max` (inclusive); an absent or non-convertible
field makes the timestamp stage reject (return `ok false`), not raise and
not pass through.  In particular `created_utc = 1609459200` is excluded
under `min-utc = 1609459201` and included under `min-utc = 1609459200`. -/
theorem c3_timestamp_filter (cfg : Config)
    (hb : cfg.minUtc.isSome ∨ cfg.maxUtc.isSome) :
    (∀ obj row, recordDecision cfg obj = .ok (some row) →
      ∃ v ts, pyGet obj cfg.createdField = .ok v ∧ pyFloat v = some ts ∧
        (∀ m, cfg.minUtc = some m → m ≤ ts) ∧ (∀ M, cfg.maxUtc = some M → ts ≤ M)) ∧
    (∀ obj v, pyGet obj cfg.createdField = .ok v → pyFloat v = none →
      tsStage cfg.minUtc cfg.maxUtc cfg.createdField obj = .ok false) ∧
    recordDecision (processArgs (c3Args (some 1609459201) none)) c3Obj = .ok none ∧
    (∃ row, recordDecision (processArgs (c3Args (some 1609459200) none)) c3Obj =
      .ok (some row)) := by
  refine ⟨?_, ?_, ?_, ?_⟩
  · intro obj row hkept
    exact tsStage_true cfg.minUtc cfg.maxUtc cfg.createdField obj hb
      (recordDecision_kept_ts cfg obj row hkept)
  · intro obj v hg hfv
    exact tsStage_reject cfg.minUtc cfg.maxUtc cfg.createdField obj v hb hg hfv
  · have hcontains : containsStage
        (processArgs (c3Args (some 1609459201) none)).contains c3Obj = .ok true := rfl
    have hts : tsStage (processArgs (c3Args (some 1609459201) none)).minUtc
        (processArgs (c3Args (some 1609459201) none)).maxUtc
        (processArgs (c3Args (some 1609459201) none)).createdField c3Obj = .ok false := by
      show tsStage (some 1609459201) none "created_utc" c3Obj = .ok false
      rw [tsStage_eq_body (some 1609459201) none "created_utc" c3Obj (Or.inl rfl)]
      unfold tsStageBody
      rw [show pyGet c3Obj "created_utc" = .ok (.int 1609459200) from rfl]
      dsimp only
      rw [show pyFloat (.int 1609459200) = some ((1609459200 : Int) : ℚ) from rfl]
      dsimp only
      rw [if_pos (by push_cast; norm_num)]
    simp only [recordDecision, hcontains, hts]
  · have hcontains : containsStage
        (processArgs (c3Args (some 1609459200) none)).contains c3Obj = .ok true := rfl
    have hts : tsStage (processArgs (c3Args (some 1609459200) none)).minUtc
        (processArgs (c3Args (some 1609459200) none)).maxUtc
        (processArgs (c3Args (some 1609459200) none)).createdField c3Obj = .ok true := by
      show tsStage (some 1609459200) none "created_utc" c3Obj = .ok true
      rw [tsStage_eq_body (some 1609459200) none "created_utc" c3Obj (Or.inl rfl)]
      unfold tsStageBody
      rw [show pyGet c3Obj "created_utc" = .ok (.int 1609459200) from rfl]
      dsimp only
      rw [show pyFloat (.int 1609459200) = some ((1609459200 : Int) : ℚ) from rfl]
      dsimp only
      rw [if_neg (by push_cast; norm_num)]
      rfl
    have hw : writeCsvRow (processArgs (c3Args (some 1609459200) none)).fields
        (processArgs (c3Args (some 1609459200) none)).datetimeFields c3Obj =
        .ok ["", "", "", "", "1609459200"] := by
      show writeCsvRow ["id", "author", "body", "score", "created_utc"] []
        (JVal.obj [("created_utc", JVal.int 1609459200)]) =
        .ok ["", "", "", "", "1609459200"]
      rw [writeCsvRow_obj]
      rfl
    exact ⟨["", "", "", "", "1609459200"],
      by simp only [recordDecision, hcontains, hts, hw]⟩

/-- Witness for C3: the two boundary scenarios of the claim, obtained from
the theorem at the concrete configurations. -/
theorem c3_timestamp_filter_witness :
    recordDecision (processArgs (c3Args (some 1609459201) none)) c3Obj = .ok none ∧
    (∃ row, recordDecision (processArgs (c3Args (some 1609459200) none)) c3Obj =
      .ok (some row)) := by
  have h := c3_timestamp_filter (processArgs (c3Args (some 1609459201) none))
    (Or.inl rfl)
  exact ⟨h.2.2.1, h.2.2.2⟩

/-- The CLI arguments of the C4 scenario: a single containment term. -/
def c4Args : Args :=
  { contains := ["gme"] }

/-- The record of the C4 scenario. -/
def c4Obj : JVal := .obj [("body", .str "To the Moon GME!")]

/-- C4: with containment terms configured (lowercased once by `main`) and
`body`/`title` values that are strings or missing/falsy (treated as empty
strings, not failures), the containment stage passes exactly when at
least one term occurs case-insensitively in the text formed by the body
value (or empty), one space, and the title value (or empty).  In
particular the record with body `To the Moon GME!` is kept under the
single term `gme`. -/
theorem c4_containment_filter (terms : List String) (t0 : String) (rest : List String)
    (hterms : terms = t0 :: rest) (kvs : List (String × JVal))
    (hb : strOrFalsy (objGet kvs "body") = true)
    (ht : strOrFalsy (objGet kvs "title") = true) :
    (containsStage (terms.map pyLower) (.obj kvs) = .ok true ↔
      ∃ t ∈ terms, pyInStr (pyLower t)
        (pyLower (strOrEmpty (objGet kvs "body") ++ " " ++
          strOrEmpty (objGet kvs "title"))) = true) ∧
    recordDecision (processArgs c4Args) c4Obj =
      .ok (some ["", "", "To the Moon GME!", "", ""]) := by
  constructor
  · rw [containsStage_good (terms.map pyLower) (pyLower t0) (rest.map pyLower)
      (by rw [hterms]; rfl) kvs hb ht]
    simp only [Except.ok.injEq, List.any_map, List.any_eq_true, Function.comp]
  · rfl

/-- Witness for C4 at the concrete record and term of the claim. -/
theorem c4_containment_filter_witness :
    (containsStage ["gme"] (.obj [("body", .str "To the Moon GME!")]) = .ok true) ∧
    recordDecision (processArgs c4Args) c4Obj =
      .ok (some ["", "", "To the Moon GME!", "", ""]) := by
  have h := c4_containment_filter ["gme"] "gme" [] rfl
    [("body", .str "To the Moon GME!")] (by decide) (by decide)
  refine ⟨?_, h.2⟩
  have h2 := h.1.mpr ⟨"gme", by decide, by decide⟩
  rw [show (["gme"].map pyLower) = ["gme"] from by decide] at h2
  exact h2

/-- The CLI arguments of the C10 scenario. -/
def c10Args : Args :=
  { contains := ["gme"] }

/-- The record of the C10 scenario: a truthy numeric `body`. -/
def c10Obj : JVal := .obj [("body", .int 5)]

/-- The parser used in the C10 scenario. -/
def c10Loads : String → Option JVal := fun _ => some c10Obj

/-- C10: with containment terms configured, the containment stage raises
an uncaught `TypeError` exactly on records whose `body` value, or whose
`title` value, is truthy and not a string: it is total only over
string/null/falsy/absent values.  On such a record the whole run aborts
with the error instead of keeping or rejecting the record. -/
theorem c10_containment_crash (terms : List String) (t0 : String) (rest : List String)
    (hterms : terms = t0 :: rest) (kvs : List (String × JVal)) :
    (containsStage terms (.obj kvs) = .error .typeError ↔
      ¬(strOrFalsy (objGet kvs "body") = true ∧
        strOrFalsy (objGet kvs "title") = true)) ∧
    drive (processArgs c10Args) c10Loads ["line1"] = .error .typeError := by
  constructor
  · constructor
    · intro h hg
      rw [containsStage_good terms t0 rest hterms kvs hg.1 hg.2] at h
      exact Except.noConfusion h
    · intro hng
      have hct := (containsText_error_iff kvs).mpr hng
      subst hterms
      simp only [containsStage, hct]
  · rfl

/-- Witness for C10: the crash materialized at a concrete term list and
record with a non-zero numeric body. -/
theorem c10_containment_crash_witness :
    containsStage ["x"] (.obj [("body", .int 5)]) = .error .typeError ∧
    drive (processArgs c10Args) c10Loads ["line1"] = .error .typeError := by
  have h := c10_containment_crash ["x"] "x" [] rfl [("body", .int 5)]
  exact ⟨h.1.mpr (by decide), h.2⟩

theorem countP_congr_mem {α : Type} (p q : α → Bool) :
    ∀ (l : List α), (∀ a ∈ l, p a = q a) → l.countP p = l.countP q := by
  intro l
  induction l with
  | nil => intro _; rfl
  | cons a as ih =>
    intro h
    simp only [List.countP_cons]
    rw [ih (fun b hb => h b (List.mem_cons_of_mem a hb)), h a (List.mem_cons_self a as)]

/-- With no filters configured and every parsed line a JSON object, no
loop iteration raises. -/
theorem fold_noFilters_ok (cfg : Config) (loads : String → Option JVal)
    (hc : cfg.contains = []) (hmn : cfg.minUtc = none) (hmx : cfg.maxUtc = none) :
    ∀ (lines : List String) (st : DriveState),
    (∀ l ∈ lines, ∀ v, loads l = some v → isObj v = true) →
    ∃ st2, List.foldlM (step cfg loads) st lines = .ok st2 := by
  intro lines
  induction lines with
  | nil => intro st _; exact ⟨st, rfl⟩
  | cons a ls ih =>
    intro st hobj
    have hstep : ∃ st1, step cfg loads st a = .ok st1 := by
      unfold step
      dsimp only
      cases hb : isBlank a with
      | true => exact ⟨_, by rw [if_pos rfl]⟩
      | false =>
        cases hl : loads a with
        | none =>
          refine ⟨{ st with total := st.total + 1 }, ?_⟩
          rw [if_neg (by simp)]
        | some v =>
          have hv := hobj a (List.mem_cons_self a ls) v hl
          cases v with
          | obj kvs =>
            refine ⟨keepUpdate cfg { st with total := st.total + 1 }
              (cfg.fields.map (fun f => encodeCell cfg.datetimeFields f (objGet kvs f))), ?_⟩
            rw [if_neg (by simp)]
            simp only [hl, recordDecision_noFilters cfg kvs hc hmn hmx]
          | null => simp [isObj] at hv
          | bool b => simp [isObj] at hv
          | int n => simp [isObj] at hv
          | float q => simp [isObj] at hv
          | str s => simp [isObj] at hv
          | arr xs => simp [isObj] at hv
    obtain ⟨st1, hst1⟩ := hstep
    obtain ⟨st2, hst2⟩ := ih st1 (fun l hm v hv => hobj l (List.mem_cons_of_mem a hm) v hv)
    exact ⟨st2, by rw [List.foldlM_cons, hst1, except_bind_ok, hst2]⟩

/-- With no filters configured, a line is kept exactly when it is
non-blank and parseable (given that parseable lines are objects). -/
theorem keptLine_noFilters (cfg : Config) (loads : String → Option JVal)
    (hc : cfg.contains = []) (hmn : cfg.minUtc = none) (hmx : cfg.maxUtc = none)
    (l : String) (hobjl : ∀ v, loads l = some v → isObj v = true) :
    keptLine cfg loads l = (!isBlank l && (loads l).isSome) := by
  unfold keptLine
  cases hb : isBlank l with
  | true => rfl
  | false =>
    cases hl : loads l with
    | none => simp [hl]
    | some v =>
      have hv := hobjl v hl
      cases v with
      | obj kvs =>
        simp only [hl, recordDecision_noFilters cfg kvs hc hmn hmx, Option.isSome_some]
      | null => simp [isObj] at hv
      | bool b => simp [isObj] at hv
      | int n => simp [isObj] at hv
      | float q => simp [isObj] at hv
      | str s => simp [isObj] at hv
      | arr xs => simp [isObj] at hv

/-- C1 (amended): for every input whose parseable lines are JSON objects,
processed with no containment terms and no timestamp bounds, the run
completes and reports a kept-row count equal to the number of non-blank,
JSON-parseable lines (and a total equal to the number of lines), and
exactly one CSV data row is written per such line across the output
files. -/
theorem c1_kept_count (cfg : Config) (loads : String → Option JVal)
    (lines : List String)
    (hc : cfg.contains = []) (hmn : cfg.minUtc = none) (hmx : cfg.maxUtc = none)
    (hobj : ∀ l ∈ lines, ∀ v, loads l = some v → isObj v = true) :
    ∃ r, drive cfg loads lines = .ok r ∧
      r.total = lines.length ∧
      r.kept = lines.countP (fun l => !isBlank l && (loads l).isSome) ∧
      (partSizes r.parts).sum = r.kept := by
  obtain ⟨st2, hfold⟩ := fold_noFilters_ok cfg loads hc hmn hmx lines (initState cfg) hobj
  have hdrive : drive cfg loads lines =
      .ok { total := st2.total, kept := st2.kept, parts := st2.closedParts ++ [st2.cur] } := by
    unfold drive
    rw [hfold]
  obtain ⟨ht, hk, hs, -⟩ := drive_ok_counts cfg loads lines _ hdrive
  refine ⟨_, hdrive, ht, ?_, hs⟩
  rw [hk]
  exact countP_congr_mem _ _ lines
    (fun l hl => keptLine_noFilters cfg loads hc hmn hmx l (hobj l hl))

/-- The no-filter configuration of the C1 scenarios (argparse defaults). -/
def c1Cfg : Config := processArgs {}

/-- A parser agreeing with `json.loads` on the C1 counterexample input:
the line `123` parses to the JSON number 123. -/
def c1Loads : String → Option JVal :=
  fun s => if s == "123" then some (.int 123) else none

/-- Counterexample to C1 as stated: the one-line input `123` is valid
NDJSON (a non-blank, independently parseable JSON document), the
configuration has no filters, yet the run reports no kept-row count at
all: it aborts with an uncaught AttributeError when `write_csv_row`
calls `.get` on the non-dict parsed value. -/
theorem c1_kept_count_counterexample :
    isBlank "123" = false ∧ c1Loads "123" = some (.int 123) ∧
    c1Cfg.contains = [] ∧ c1Cfg.minUtc = none ∧ c1Cfg.maxUtc = none ∧
    drive c1Cfg c1Loads ["123"] = .error .attributeError :=
  ⟨by decide, rfl, rfl, rfl, rfl, rfl⟩

/-- A parser for the C1 witness: every line parses to the empty object. -/
def c1WLoads : String → Option JVal := fun _ => some (.obj [])

/-- Witness for C1 (amended) on a three-line input with one blank line. -/
theorem c1_kept_count_witness :
    ∃ r, drive c1Cfg c1WLoads ["x", " ", "y"] = .ok r ∧ r.total = 3 ∧ r.kept = 2 := by
  obtain ⟨r, hd, ht, hk, -⟩ := c1_kept_count c1Cfg c1WLoads ["x", " ", "y"]
    rfl rfl rfl (by intro l _ v hv; cases hv; rfl)
  refine ⟨r, hd, by rw [ht]; rfl, by rw [hk]; decide⟩

/-- C2: at the end of every completed run, kept ≤ total, and total equals
kept plus exactly the blank lines, the JSON-parse failures and the
filter rejections; moreover blank lines are never handed to the parser:
any parser agreeing on the non-blank lines yields the identical run. -/
theorem c2_counter_invariant (cfg : Config) (loads : String → Option JVal)
    (lines : List String) (r : RunResult) (h : drive cfg loads lines = .ok r) :
    r.kept ≤ r.total ∧
    r.total = r.kept + (lines.countP isBlank + lines.countP (badJsonLine loads) +
      lines.countP (rejectedLine cfg loads)) ∧
    (∀ loads2, (∀ l, isBlank l = false → loads l = loads2 l) →
      drive cfg loads2 lines = .ok r) := by
  obtain ⟨ht, hk, -, hp⟩ := drive_ok_counts cfg loads lines r h
  refine ⟨?_, by omega, ?_⟩
  · rw [ht, hk]
    calc lines.countP (keptLine cfg loads) ≤ lines.length := List.countP_le_length _
    _ = lines.length := rfl
  · intro loads2 hagree
    rw [← drive_loads_agree cfg loads loads2 hagree lines]
    exact h

/-- The parser of the C2 witness: `x` parses to an object, anything else
fails. -/
def c2WLoads : String → Option JVal :=
  fun s => if s == "x" then some (.obj []) else none

/-- The run result of the C2 witness input. -/
def c2WRes : RunResult :=
  { total := 3
    kept := 1
    parts := [{ path := "out.csv"
                header := ["id", "author", "body", "score", "created_utc"]
                data := [["", "", "", "", ""]] }] }

/-- Witness for C2 on an input with one kept line, one blank line and one
malformed line. -/
theorem c2_counter_invariant_witness :
    drive c1Cfg c2WLoads ["x", " ", "bad"] = .ok c2WRes ∧
    c2WRes.kept ≤ c2WRes.total ∧
    c2WRes.total = c2WRes.kept + (["x", " ", "bad"].countP isBlank +
      ["x", " ", "bad"].countP (badJsonLine c2WLoads) +
      ["x", " ", "bad"].countP (rejectedLine c1Cfg c2WLoads)) := by
  have hd : drive c1Cfg c2WLoads ["x", " ", "bad"] = .ok c2WRes := rfl
  have h := c2_counter_invariant c1Cfg c2WLoads ["x", " ", "bad"] c2WRes hd
  exact ⟨hd, h.1, h.2.1⟩

/-- C7: with rotation enabled, every output part path is the base output
path with `_partNNNN` (zero-padded to four digits, starting at 0001 for
the first part) inserted before the extension, the extension defaulting
to `.csv` when the base path has none; every part begins with the header
row; and a run with threshold 2 and 5 kept rows produces exactly the
parts [2, 2, 1] (data rows per part). -/
theorem c7_rotation_convention (cfg : Config) (loads : String → Option JVal)
    (lines : List String) (r : RunResult) (ht : 0 < cfg.maxRowsPerFile)
    (h : drive cfg loads lines = .ok r) :
    (r.parts.map (fun p => p.path) =
      (List.range r.parts.length).map (fun i => makeWriterPath cfg.out (some (i + 1)))) ∧
    (∀ idx, makeWriterPath cfg.out (some idx) =
      (splitext cfg.out).1 ++ "_part" ++ pad4 idx ++
        (if (splitext cfg.out).2 == "" then ".csv" else (splitext cfg.out).2)) ∧
    (∀ p ∈ r.parts, p.header = cfg.fields) ∧
    (cfg.maxRowsPerFile = 2 → r.kept = 5 → partSizes r.parts = [2, 2, 1]) := by
  obtain ⟨hsizes, hpaths, hhdrs⟩ := drive_rot cfg loads lines r ht h
  refine ⟨hpaths, fun idx => rfl, hhdrs, ?_⟩
  intro h2 h5
  rw [hsizes, h5, h2]
  rfl

/-- The configuration of the C7/C9 rotation witnesses: one projected
field, threshold 2. -/
def c7WCfg : Config :=
  { fields := ["a"]
    datetimeFields := []
    contains := []
    minUtc := none
    maxUtc := none
    createdField := "created_utc"
    maxRowsPerFile := 2
    out := "o.csv" }

/-- The parser of the rotation witnesses: each line becomes an object
holding the line under key `a`. -/
def c7WLoads : String → Option JVal := fun s => some (.obj [("a", .str s)])

/-- The result of the 5-row rotation witness run. -/
def c7WRes : RunResult :=
  { total := 5
    kept := 5
    parts := [{ path := "o_part0001.csv", header := ["a"], data := [["1"], ["2"]] },
              { path := "o_part0002.csv", header := ["a"], data := [["3"], ["4"]] },
              { path := "o_part0003.csv", header := ["a"], data := [["5"]] }] }

/-- Witness for C7: a concrete run with threshold 2 and five kept rows
produces three parts of 2, 2 and 1 data rows at the `_partNNNN` paths. -/
theorem c7_rotation_convention_witness :
    drive c7WCfg c7WLoads ["1", "2", "3", "4", "5"] = .ok c7WRes ∧
    partSizes c7WRes.parts = [2, 2, 1] ∧
    c7WRes.parts.map (fun p => p.path) =
      ["o_part0001.csv", "o_part0002.csv", "o_part0003.csv"] := by
  have hd : drive c7WCfg c7WLoads ["1", "2", "3", "4", "5"] = .ok c7WRes := rfl
  have h := c7_rotation_convention c7WCfg c7WLoads _ c7WRes (by decide) hd
  refine ⟨hd, h.2.2.2 rfl rfl, ?_⟩
  rw [h.1]
  rfl

/-- C9: with rotation enabled, whenever the kept-row count is a positive
multiple of the threshold, the run leaves one additional trailing part
holding the header and zero data rows (rotation opens the next part
eagerly as soon as the current one fills). -/
theorem c9_trailing_empty_part (cfg : Config) (loads : String → Option JVal)
    (lines : List String) (r : RunResult) (ht : 0 < cfg.maxRowsPerFile)
    (h : drive cfg loads lines = .ok r)
    (_hk : 0 < r.kept) (hdvd : cfg.maxRowsPerFile.toNat ∣ r.kept) :
    r.parts.length = r.kept / cfg.maxRowsPerFile.toNat + 1 ∧
    ∃ p, r.parts.getLast? = some p ∧ p.data = [] ∧ p.header = cfg.fields := by
  obtain ⟨hsizes, hpaths, hhdrs⟩ := drive_rot cfg loads lines r ht h
  have ht2 : 0 < cfg.maxRowsPerFile.toNat := by omega
  have hmod : r.kept % cfg.maxRowsPerFile.toNat = 0 := Nat.mod_eq_zero_of_dvd hdvd
  rw [hmod] at hsizes
  have hlen : r.parts.length = r.kept / cfg.maxRowsPerFile.toNat + 1 := by
    have hl := congrArg List.length hsizes
    simp only [partSizes, List.length_map, List.length_append, List.length_replicate,
      List.length_cons, List.length_nil] at hl
    omega
  refine ⟨hlen, ?_⟩
  have hne : r.parts ≠ [] := by
    intro he
    rw [he] at hlen
    simp at hlen
  refine ⟨r.parts.getLast hne, List.getLast?_eq_getLast r.parts hne, ?_, ?_⟩
  · have hmap : (partSizes r.parts).getLast? =
        some ((r.parts.getLast hne).data.length) := by
      unfold partSizes
      rw [List.getLast?_map, List.getLast?_eq_getLast r.parts hne]
      rfl
    rw [hsizes, List.getLast?_concat] at hmap
    simp only [Option.some.injEq] at hmap
    exact List.length_eq_zero.mp hmap.symm
  · exact hhdrs _ (List.getLast_mem hne)

/-- The result of the 2-row rotation witness run: the kept count 2 is a
multiple of the threshold 2, and a trailing header-only part is left. -/
def c9WRes : RunResult :=
  { total := 2
    kept := 2
    parts := [{ path := "o_part0001.csv", header := ["a"], data := [["1"], ["2"]] },
              { path := "o_part0002.csv", header := ["a"], data := [] }] }

/-- Witness for C9: a run with threshold 2 and exactly 2 kept rows leaves
two parts, the last holding only the header. -/
theorem c9_trailing_empty_part_witness :
    drive c7WCfg c7WLoads ["1", "2"] = .ok c9WRes ∧
    c9WRes.parts.length = 2 ∧
    (∃ p, c9WRes.parts.getLast? = some p ∧ p.data = [] ∧ p.header = c7WCfg.fields) := by
  have hd : drive c7WCfg c7WLoads ["1", "2"] = .ok c9WRes := rfl
  have h := c9_trailing_empty_part c7WCfg c7WLoads _ c9WRes (by decide) hd
    (by decide) (by decide)
  exact ⟨hd, by rw [h.1]; rfl, h.2⟩

end NdjsonToCsv
